import Mathlib

/-!
Verification of the XADF XML-to-domain-model transformation engine
(`xadf_to_json_clean_v9.py` and `xadf_summary_app_v3.py`).

The Python code is shallowly embedded: XML element trees become the
inductive `RawNode`; Python dicts produced by `element_to_dict` become
insertion-ordered association lists over the `Value` type (a Python value
in this program is a string, a dict, a list of strings produced by
`translate_used_lines`, or `None`); functions that can raise (the code
raises `AttributeError` / `TypeError` on some inputs) return `Option`,
with `none` modelling an uncaught exception.
-/

set_option maxRecDepth 10000

namespace XADF

/-- Values stored in the dicts built by `element_to_dict` and enriched by
`parse_xadf`: a string, a nested dict (insertion-ordered association list),
a list of strings (only ever produced by `translate_used_lines`), or
Python `None`. -/
inductive Value : Type where
  | scalar (s : String)
  | record (d : List (String × Value))
  | strList (l : List String)
  | absent

/-- A Python dict with string keys, as an insertion-ordered association list. -/
abbrev Dict := List (String × Value)

/-- Python `d[k] = v`: overwrite in place if the key exists, else append. -/
def dictInsert : Dict → String → Value → Dict
  | [], k, v => [(k, v)]
  | (k0, v0) :: rest, k, v =>
    if k0 = k then (k0, v) :: rest else (k0, v0) :: dictInsert rest k v

/-- Python `d.get(k)` as an `Option` (distinguishing a missing key from a
stored `None`). -/
def dictLookup : Dict → String → Option Value
  | [], _ => none
  | (k0, v0) :: rest, k => if k0 = k then some v0 else dictLookup rest k

/-- Python `d.get(k)` where a missing key and a stored `None` are both `None`. -/
def pyGet (d : Dict) (k : String) : Value :=
  (dictLookup d k).getD Value.absent

/-- Python `k in d`. -/
def containsKey (d : Dict) (k : String) : Bool :=
  (dictLookup d k).isSome

/-- Python `d.values()` in insertion order. -/
def dictValues (d : Dict) : List Value :=
  d.map (fun p => p.2)

/-- Remove every pair with the given key (used to compare the two source
variants modulo their `PE_Spc_Number` divergence). -/
def dictErase (d : Dict) (k : String) : Dict :=
  d.filter (fun p => p.1 ≠ k)

/-- Python truthiness of a `Value`: `""`, `{}`, `[]` and `None` are falsy. -/
def Value.truthy : Value → Bool
  | .scalar s => s ≠ ""
  | .record d => !d.isEmpty
  | .strList l => !l.isEmpty
  | .absent => false

/-- Whitespace characters removed by Python `str.strip()`. -/
def isPySpace (c : Char) : Bool :=
  c = ' ' || c = '\t' || c = '\n' || c = '\r' || c = '\x0b' || c = '\x0c'

/-- Python `str.strip()` on a character list. -/
def stripChars (cs : List Char) : List Char :=
  ((cs.dropWhile isPySpace).reverse.dropWhile isPySpace).reverse

/-- Python `str.strip()`. -/
def pyStrip (s : String) : String :=
  ⟨stripChars s.data⟩

/-- ASCII decimal digit. -/
def isDigitChar (c : Char) : Bool :=
  '0' ≤ c && c ≤ '9'

/-- Python `str.isdigit()` (for the ASCII strings this format uses):
nonempty and all digits. -/
def pyIsDigit (s : String) : Bool :=
  !s.data.isEmpty && s.data.all isDigitChar

/-- Numeric value of an all-digit string. -/
def pyNatOf (s : String) : Nat :=
  s.data.foldl (fun a c => a * 10 + (c.toNat - 48)) 0

/-- Parse of a nonempty all-digit character list. -/
def digitsToNat : List Char → Option Nat
  | [] => none
  | cs => if cs.all isDigitChar then some (cs.foldl (fun a c => a * 10 + (c.toNat - 48)) 0) else none

/-- Python `int(x)` on a string: surrounding whitespace and an optional
sign are allowed around a nonempty digit run; everything else raises
(`none`). -/
def pyInt : List Char → Option Int
  | cs =>
    match stripChars cs with
    | '+' :: r => (digitsToNat r).map Int.ofNat
    | '-' :: r => (digitsToNat r).map (fun n => -(n : Int))
    | r => (digitsToNat r).map Int.ofNat

/-- Python `s.split(",")` (keeping empty pieces). -/
def splitComma (cs : List Char) : List (List Char) :=
  match cs with
  | [] => [[]]
  | c :: rest =>
    match splitComma rest with
    | [] => [[]]
    | piece :: pieces => if c = ',' then [] :: piece :: pieces else (c :: piece) :: pieces

/-- Is `p` a prefix of `s` (Python `str.startswith`)? -/
def startsWithChars : List Char → List Char → Bool
  | [], _ => true
  | _ :: _, [] => false
  | p :: ps, c :: cs => p = c && startsWithChars ps cs

/-- Python `k.startswith(p)`. -/
def pyStartswith (s p : String) : Bool :=
  startsWithChars p.data s.data

/-- The 92 chemical symbols of `ELEMENTS` in atomic-number order (the
Python dict maps `1..92` to these). -/
def ELEMENTS_LIST : List String :=
  ["H","He","Li","Be","B","C","N","O","F","Ne","Na","Mg","Al","Si","P","S","Cl","Ar",
   "K","Ca","Sc","Ti","V","Cr","Mn","Fe","Co","Ni","Cu","Zn","Ga","Ge","As","Se","Br","Kr",
   "Rb","Sr","Y","Zr","Nb","Mo","Tc","Ru","Rh","Pd","Ag","Cd","In","Sn","Sb","Te","I","Xe",
   "Cs","Ba","La","Ce","Pr","Nd","Pm","Sm","Eu","Gd","Tb","Dy","Ho","Er","Tm","Yb","Lu",
   "Hf","Ta","W","Re","Os","Ir","Pt","Au","Hg","Tl","Pb","Bi","Po","At","Rn","Fr","Ra","Ac",
   "Th","Pa","U"]

/-- Python `ELEMENTS.get(n, "?")`: the dict is keyed `1..92`. -/
def elementsGet (n : Nat) : String :=
  if n = 0 then "?" else (ELEMENTS_LIST.get? (n - 1)).getD "?"

/-- `LINE_MAP`: emission-line code to line name. -/
def LINE_MAP : List (Int × String) :=
  [(3, "K_alpha1"), (4, "K_alpha2"), (5, "K_beta2"), (6, "K_beta1"), (8, "K_beta3"),
   (9, "K_beta5"), (12, "L_alpha1"), (14, "L_beta1"), (15, "L_beta2"), (17, "L_gamma1")]

/-- Python `LINE_MAP.get(n)`. -/
def lineMapGet (n : Int) : Option String :=
  (LINE_MAP.find? (fun p => p.1 = n)).map (fun p => p.2)

/-- `ATMOSPHERE_MAP` keys and names. -/
def ATMOSPHERE_MAP : List (String × String) :=
  [("0", "Vacuum"), ("1", "Air"), ("2", "Helium")]

/-- The comma-separated tokens of `s` kept by `translate_used_lines`
(Python `[x for x in s.split(",") if x.strip()]`, tokens kept untrimmed). -/
def usedLineTokens (s : String) : List String :=
  ((splitComma s.data).filter (fun t => !(stripChars t).isEmpty)).map (fun t => ⟨t⟩)

/-- One token's translation: `LINE_MAP.get(int(x), f"Line{x}")`. -/
def translateTok (t : String) : String :=
  match pyInt t.data with
  | some n => (lineMapGet n).getD ("Line" ++ t)
  | none => ""

/-- `translate_used_lines(s)`: falsy input gives `[]`; a truthy non-string
gives `[]` (the `.split` call raises and is caught); otherwise each token
is translated, and if `int(x)` raises on any token the whole field
degrades to `[]`. -/
def translate_used_lines : Value → List String
  | .scalar s =>
    if s = "" then []
    else
      let toks := usedLineTokens s
      if toks.all (fun t => (pyInt t.data).isSome) then toks.map translateTok else []
  | _ => []

/-- An XML element: tag, optional `Type` attribute, optional text, children. -/
inductive RawNode : Type where
  | mk (tag : String) (typ : Option String) (text : Option String) (children : List RawNode)

def RawNode.tag : RawNode → String
  | .mk t _ _ _ => t

def RawNode.typ : RawNode → Option String
  | .mk _ a _ _ => a

def RawNode.text : RawNode → Option String
  | .mk _ _ x _ => x

def RawNode.children : RawNode → List RawNode
  | .mk _ _ _ cs => cs

/-- Value of a leaf child: `c.text.strip() if c.text else None`. -/
def leafValue (text : Option String) : Value :=
  match text with
  | none => Value.absent
  | some t => if t = "" then Value.absent else Value.scalar (pyStrip t)

mutual

/-- `element_to_dict(elem)`: flatten a subtree into a dict.  A child tagged
`ClassInstance` is not inserted itself; instead each of its own children
`sub` is inserted as `d[sub.tag] = element_to_dict(sub)` (always a dict,
even when `sub` is a leaf).  Any other child becomes a nested dict if it
has children, else its trimmed text or `None`. -/
def element_to_dict : RawNode → Dict
  | .mk _ _ _ cs => etdChildren cs []

/-- The `for c in elem` loop of `element_to_dict`, with accumulator `d`. -/
def etdChildren : List RawNode → Dict → Dict
  | [], d => d
  | .mk t a x subcs :: rest, d =>
    if t = "ClassInstance" then
      etdChildren rest (etdSubs subcs d)
    else
      etdChildren rest
        (dictInsert d t
          (if subcs.isEmpty then leafValue x else Value.record (element_to_dict (.mk t a x subcs))))

/-- The `for sub in c` loop inside the `ClassInstance` branch. -/
def etdSubs : List RawNode → Dict → Dict
  | [], d => d
  | s :: rest, d => etdSubs rest (dictInsert d s.tag (Value.record (element_to_dict s)))

end

mutual

/-- All nodes of a subtree in document (preorder) order. -/
def preorder : RawNode → List RawNode
  | .mk t a x cs => .mk t a x cs :: preorderList cs

/-- All nodes of a forest in document order. -/
def preorderList : List RawNode → List RawNode
  | [] => []
  | c :: rest => preorder c ++ preorderList rest

end

/-- `root.findall(".//ClassInstance[@Type=ty]")`: every proper descendant
tagged `ClassInstance` whose `Type` attribute is `ty`, in document order. -/
def findall (root : RawNode) (ty : String) : List RawNode :=
  (preorderList root.children).filter (fun n => n.tag = "ClassInstance" && n.typ = some ty)

/-- `root.find(".//ClassInstance[@Type=ty]")`: the first such descendant. -/
def findFirst (root : RawNode) (ty : String) : Option RawNode :=
  (findall root ty).head?

end XADF

namespace XADF

/-- The tolerant atomic-number enrichment shared by the `TubeZ` and `Z`
fields: if the field is a truthy digit string, insert the derived symbol
under `dstKey`; a falsy or non-digit value is left alone; a truthy
non-string raises (`.isdigit` on a dict / list). -/
def digitSymbolStep (r : Dict) (srcKey dstKey : String) : Option Dict :=
  match pyGet r srcKey with
  | .scalar s =>
    if s = "" then some r
    else if pyIsDigit s then some (dictInsert r dstKey (.scalar (elementsGet (pyNatOf s))))
    else some r
  | .absent => some r
  | .record d => if d.isEmpty then some r else none
  | .strList l => if l.isEmpty then some r else none

/-- The atmosphere enrichment: `if atm in ATMOSPHERE_MAP` — membership
test on a dict key, which raises `TypeError` when `atm` is unhashable
(a dict or list), matches or misses on a string, and misses on `None`. -/
def atmStep (r : Dict) : Option Dict :=
  match pyGet r "Atmosphere" with
  | .scalar s =>
    match ATMOSPHERE_MAP.find? (fun p => p.1 = s) with
    | some p => some (dictInsert r "AtmosphereName" (.scalar p.2))
    | none => some r
  | .absent => some r
  | .record _ => none
  | .strList _ => none

/-- The MeasurementParameters section: locate, flatten, take the `MParam`
entry (default `{}`), then enrich.  A non-dict `MParam` value raises at
the first `.get`. -/
def mparamPhase (root : RawNode) : Option Dict :=
  match findFirst root "TXS2_XADFMgr_MParam" with
  | none => some []
  | some m =>
    match dictLookup (element_to_dict m) "MParam" with
    | none =>
      match digitSymbolStep [] "TubeZ" "TubeElement" with
      | none => none
      | some r1 => atmStep r1
    | some (.record r) =>
      match digitSymbolStep r "TubeZ" "TubeElement" with
      | none => none
      | some r1 => atmStep r1
    | some _ => none

/-- The CalculationParameters section (key set only when the subtree is
found; a present key keeps whatever value was flattened, default `{}`). -/
def calcPhase (root : RawNode) : Option Value :=
  (findFirst root "TXS2_XADFMgr_CalcParam").map
    (fun c => (dictLookup (element_to_dict c) "CalculationParameters").getD (.record []))

/-- `next(iter(ed.values())) if ed else {}` followed by the `.get` calls,
which require the first value to be a dict (anything else raises). -/
def firstValRecord : Dict → Option Dict
  | [] => some []
  | (_, v) :: _ =>
    match v with
    | .record r => some r
    | _ => none

/-- The v9 `PE_Spc_Number` hoist scan: the first value that is a dict
containing the key, with its position and key (the loop breaks on the
first hit). -/
def hoistFindAux : List (String × Value) → Nat → Option (Nat × String × Value)
  | [], _ => none
  | (k, v) :: rest, i =>
    match v with
    | .record r =>
      match dictLookup r "PE_Spc_Number" with
      | some pe => some (i, k, pe)
      | none => hoistFindAux rest (i + 1)
    | _ => hoistFindAux rest (i + 1)

def hoistFind (d : Dict) : Option (Nat × String × Value) :=
  hoistFindAux d 0

/-- The `UsedLines → EmissionLines` translation applied to one value. -/
def translateVal : Value → Value
  | .record r =>
    if containsKey r "UsedLines" then
      .record (dictInsert r "EmissionLines" (.strList (translate_used_lines (pyGet r "UsedLines"))))
    else .record r
  | v => v

/-- The `for k, v in se.items()` translation loop. -/
def translateStep (d : Dict) : Dict :=
  d.map (fun p => (p.1, translateVal p.2))

/-- Python mutates the hoisted dict in place, and that dict is also the
`PE_Spc_Number` member of the entry it was hoisted from; after the
translation loop the nested copy therefore equals the (possibly
translated) top-level one.  `writeBack d i` restores that sharing in the
pure model: entry `i`'s record gets its `PE_Spc_Number` set to the
current top-level `PE_Spc_Number` value. -/
def writeBack (d : Dict) (i : Nat) : Dict :=
  match d.get? i with
  | some (k, .record r) =>
    match dictLookup d "PE_Spc_Number" with
    | some pe => d.set i (k, .record (dictInsert r "PE_Spc_Number" pe))
    | none => d
  | _ => d

/-- One Global Element Registry entry, v9: flatten, take the first value,
derive `ElementSymbol` from `Z`, hoist the first nested `PE_Spc_Number`
(skipped when it is `None`), then translate every `UsedLines`. -/
def processElementV9 (e : RawNode) : Option Dict :=
  match firstValRecord (element_to_dict e) with
  | none => none
  | some se0 =>
    match digitSymbolStep se0 "Z" "ElementSymbol" with
    | none => none
    | some se1 =>
      match hoistFind se1 with
      | none => some (translateStep se1)
      | some (i, k, pe) =>
        match pe with
        | .absent => some (translateStep se1)
        | .record _ =>
          let se3 := translateStep (dictInsert se1 "PE_Spc_Number" pe)
          some (if k = "PE_Spc_Number" then se3 else writeBack se3 i)
        | _ => some (translateStep (dictInsert se1 "PE_Spc_Number" pe))

/-- One Global Element Registry entry, v3: as v9 but with no hoist step. -/
def processElementV3 (e : RawNode) : Option Dict :=
  match firstValRecord (element_to_dict e) with
  | none => none
  | some se0 =>
    match digitSymbolStep se0 "Z" "ElementSymbol" with
    | none => none
    | some se1 => some (translateStep se1)

/-- Process every matched subtree in order; any raise aborts the parse. -/
def optionMapList (f : RawNode → Option Dict) : List RawNode → Option (List Dict)
  | [] => some []
  | e :: rest =>
    match f e with
    | none => none
    | some d =>
      match optionMapList f rest with
      | none => none
      | some ds => some (d :: ds)

/-- `element_lookup.get(int(gi)) if gi and gi.isdigit() else {}` followed
by `ei.get(...)`: a falsy or non-digit-string index degrades to `{}`, a
truthy non-string raises at `.isdigit`, and a digit string out of range
makes `.get` return `None`, so the following `ei.get` raises. -/
def resolveEI (gi : Value) (lk : List Dict) : Option Dict :=
  match gi with
  | .absent => some []
  | .scalar s =>
    if s = "" then some []
    else if pyIsDigit s then
      match lk.get? (pyNatOf s) with
      | some ei => some ei
      | none => none
    else some []
  | .record r => if r.isEmpty then some [] else none
  | .strList l => if l.isEmpty then some [] else none

/-- One step of the `for sub in ei.values()` scan: `lines` is reassigned
whenever `sub` is a dict containing `EmissionLines`. -/
def linesStep (acc v : Value) : Value :=
  match v with
  | .record r =>
    match dictLookup r "EmissionLines" with
    | some el => el
    | none => acc
  | _ => acc

/-- The `for sub in ei.values()` scan: `lines` is reassigned at every dict
value containing `EmissionLines` (there is no `break`), so the last hit
wins; the initial value is `[]`. -/
def linesScan (vals : List Value) : Value :=
  vals.foldl linesStep (.strList [])

/-- A merged layer element reference.  `PE` is the `PE_Spc_Number` field
present only in the v9 variant (`none` in v3). -/
structure LayerRef where
  Symbol : Value
  Conc : Value
  PE : Option Value
  Lines : Value

structure Layer where
  Index : Nat
  Description : Value
  Thickness_um : Value
  Density_gcm3 : Value
  Elements : List LayerRef

/-- The `for k, v in d.items()` element-reference loop of a v9 layer. -/
def refsV9 (lk : List Dict) : List (String × Value) → Option (List LayerRef)
  | [] => some []
  | (k, v) :: rest =>
    if pyStartswith k "Element_" then
      match v with
      | .record vr =>
        match resolveEI (pyGet vr "GlobalElementIndex") lk with
        | none => none
        | some ei =>
          match refsV9 lk rest with
          | none => none
          | some rs =>
            some ({ Symbol := (dictLookup ei "ElementSymbol").getD (.scalar "?"),
                    Conc := (dictLookup vr "StartConcentration").getD (.scalar "?"),
                    PE := some ((dictLookup ei "PE_Spc_Number").getD (.scalar "?")),
                    Lines := linesScan (dictValues ei) } :: rs)
      | _ => refsV9 lk rest
    else refsV9 lk rest

/-- The element-reference loop of a v3 layer (no `PE_Spc_Number`). -/
def refsV3 (lk : List Dict) : List (String × Value) → Option (List LayerRef)
  | [] => some []
  | (k, v) :: rest =>
    if pyStartswith k "Element_" then
      match v with
      | .record vr =>
        match resolveEI (pyGet vr "GlobalElementIndex") lk with
        | none => none
        | some ei =>
          match refsV3 lk rest with
          | none => none
          | some rs =>
            some ({ Symbol := (dictLookup ei "ElementSymbol").getD (.scalar "?"),
                    Conc := (dictLookup vr "StartConcentration").getD (.scalar "?"),
                    PE := none,
                    Lines := linesScan (dictValues ei) } :: rs)
      | _ => refsV3 lk rest
    else refsV3 lk rest

/-- `d.get("Density",{}).get("Default") if isinstance(d.get("Density"),dict)
else d.get("Density")`. -/
def densityOf (r : Dict) : Value :=
  match pyGet r "Density" with
  | .record dr => pyGet dr "Default"
  | v => v

/-- `next(iter(L.values())) if L else {}`. -/
def layerHeadVal (L : Dict) : Value :=
  match L with
  | [] => .record []
  | (_, v) :: _ => v

/-- The v9 layer loop, carrying the 1-based `enumerate` counter: a layer
whose first flattened value is falsy is skipped (the counter still
advances); a truthy non-dict raises at `d.get`. -/
def processLayersV9 (lk : List Dict) : List RawNode → Nat → Option (List Layer)
  | [], _ => some []
  | lyr :: rest, i =>
    let d := layerHeadVal (element_to_dict lyr)
    if d.truthy then
      match d with
      | .record r =>
        match refsV9 lk r with
        | none => none
        | some refs =>
          match processLayersV9 lk rest (i + 1) with
          | none => none
          | some ls =>
            some ({ Index := i, Description := pyGet r "Description",
                    Thickness_um := pyGet r "Thickness",
                    Density_gcm3 := densityOf r, Elements := refs } :: ls)
      | _ => none
    else processLayersV9 lk rest (i + 1)

/-- The v3 layer loop. -/
def processLayersV3 (lk : List Dict) : List RawNode → Nat → Option (List Layer)
  | [], _ => some []
  | lyr :: rest, i =>
    let d := layerHeadVal (element_to_dict lyr)
    if d.truthy then
      match d with
      | .record r =>
        match refsV3 lk r with
        | none => none
        | some refs =>
          match processLayersV3 lk rest (i + 1) with
          | none => none
          | some ls =>
            some ({ Index := i, Description := pyGet r "Description",
                    Thickness_um := pyGet r "Thickness",
                    Density_gcm3 := densityOf r, Elements := refs } :: ls)
      | _ => none
    else processLayersV3 lk rest (i + 1)

/-- The parse result: `Info` / `CalculationParameters` keys are present
only when their subtree was found. -/
structure DocumentModel where
  Info : Option Dict
  MeasurementParameters : Dict
  CalculationParameters : Option Value
  Elements : List Dict
  Layers : List Layer

/-- `parse_xadf` of `xadf_to_json_clean_v9.py`; `none` models an uncaught
exception. -/
def parse_xadf_v9 (root : RawNode) : Option DocumentModel :=
  match mparamPhase root with
  | none => none
  | some mp =>
    match optionMapList processElementV9 (findall root "TXS2_XADFMgr_SingleElement") with
    | none => none
    | some els =>
      match processLayersV9 els (findall root "TXS2_XADFMgr_SingleLayer") 1 with
      | none => none
      | some lys =>
        some { Info := (findFirst root "TXS2_XADFMgr_Info").map element_to_dict,
               MeasurementParameters := mp,
               CalculationParameters := calcPhase root,
               Elements := els, Layers := lys }

/-- `parse_xadf` of `xadf_summary_app_v3.py`. -/
def parse_xadf_v3 (root : RawNode) : Option DocumentModel :=
  match mparamPhase root with
  | none => none
  | some mp =>
    match optionMapList processElementV3 (findall root "TXS2_XADFMgr_SingleElement") with
    | none => none
    | some els =>
      match processLayersV3 els (findall root "TXS2_XADFMgr_SingleLayer") 1 with
      | none => none
      | some lys =>
        some { Info := (findFirst root "TXS2_XADFMgr_Info").map element_to_dict,
               MeasurementParameters := mp,
               CalculationParameters := calcPhase root,
               Elements := els, Layers := lys }

end XADF

namespace XADF

/-! Concrete input trees and auxiliary definitions used to state the
claims. -/

/-- A leaf element with text. -/
def leafNode (t txt : String) : RawNode := .mk t none (some txt) []

/-- An inner element with children and no text or attributes. -/
def branchNode (t : String) (cs : List RawNode) : RawNode := .mk t none none cs

/-- A `ClassInstance` element with a `Type` attribute. -/
def classInst (ty : String) (cs : List RawNode) : RawNode :=
  .mk "ClassInstance" (some ty) none cs

/-- A bare `ClassInstance` wrapper (no `Type` attribute). -/
def wrapNode (cs : List RawNode) : RawNode := .mk "ClassInstance" none none cs

/-- A node whose single child is one `ClassInstance` wrapper around the
leaf `<Foo>bar</Foo>`. -/
def c2wrapped : RawNode := branchNode "R" [wrapNode [leafNode "Foo" "bar"]]

/-- The same node with the wrapper layer removed. -/
def c2plain : RawNode := branchNode "R" [leafNode "Foo" "bar"]

/-- Three registry entries and one layer whose element reference carries
`GlobalElementIndex="7"` — the spec's graceful-degradation scenario. -/
def c1tree : RawNode :=
  branchNode "Root"
    [classInst "TXS2_XADFMgr_SingleElement" [], classInst "TXS2_XADFMgr_SingleElement" [],
     classInst "TXS2_XADFMgr_SingleElement" [],
     classInst "TXS2_XADFMgr_SingleLayer"
       [branchNode "TL" [branchNode "Element_0" [leafNode "GlobalElementIndex" "7"]]]]

/-- A registry entry with two nested records carrying `UsedLines`, and a
layer referencing it. -/
def c3tree : RawNode :=
  branchNode "Root"
    [classInst "TXS2_XADFMgr_SingleElement"
       [branchNode "TSEL"
          [branchNode "SingleLine_0" [leafNode "UsedLines" "3"],
           branchNode "SingleLine_1" [leafNode "UsedLines" "4"]]],
     classInst "TXS2_XADFMgr_SingleLayer"
       [branchNode "TL" [branchNode "Element_0" [leafNode "GlobalElementIndex" "0"]]]]

/-- A document whose first layer subtree flattens to an empty record and
is skipped, followed by a normal layer. -/
def c4tree : RawNode :=
  branchNode "Root"
    [classInst "TXS2_XADFMgr_SingleLayer" [],
     classInst "TXS2_XADFMgr_SingleLayer" [branchNode "TL" [leafNode "Description" "top"]]]

/-- A registry entry whose nested record carries a dict-valued
`PE_Spc_Number` that itself contains `UsedLines`, plus a layer
referencing it: the v9 hoist feeds this dict into the `EmissionLines`
translation and the `Lines` scan. -/
def c8tree : RawNode :=
  branchNode "Root"
    [classInst "TXS2_XADFMgr_SingleElement"
       [branchNode "TSEL"
          [branchNode "SingleLine_0"
             [branchNode "PE_Spc_Number" [leafNode "UsedLines" "4"], leafNode "UsedLines" "3"]]],
     classInst "TXS2_XADFMgr_SingleLayer"
       [branchNode "TL" [branchNode "Element_0" [leafNode "GlobalElementIndex" "0"]]]]

/-- A well-behaved document (scalar `PE_Spc_Number`) on which both
variants complete. -/
def c8wtree : RawNode :=
  branchNode "Root"
    [classInst "TXS2_XADFMgr_SingleElement"
       [branchNode "TSEL"
          [leafNode "Z" "29",
           branchNode "SingleLine_0" [leafNode "PE_Spc_Number" "5", leafNode "UsedLines" "3"]]],
     classInst "TXS2_XADFMgr_SingleLayer"
       [branchNode "TL"
          [leafNode "Description" "cu",
           branchNode "Element_0"
             [leafNode "GlobalElementIndex" "0", leafNode "StartConcentration" "100"]]]]

/-- `Lines` of the first element reference of the first layer. -/
def firstLayerFirstRefLines (o : Option DocumentModel) : Option Value :=
  o.bind fun m => m.Layers.head?.bind fun L => L.Elements.head?.map LayerRef.Lines

/-- The `Index` fields of the parsed layers. -/
def layersIndexList (o : Option DocumentModel) : Option (List Nat) :=
  o.map fun m => m.Layers.map Layer.Index

/-- The `EmissionLines` value of a dict value, when it is a dict that has
one. -/
def elOf : Value → Option Value
  | .record r => dictLookup r "EmissionLines"
  | _ => none

/-- Does the layer loop skip this subtree (first flattened value falsy)? -/
def layerSkip (lyr : RawNode) : Bool :=
  !(layerHeadVal (element_to_dict lyr)).truthy

/-- The 1-based document-order positions, starting at `i`, of the layer
subtrees that are not skipped. -/
def docIndexes (i : Nat) : List RawNode → List Nat
  | [] => []
  | lyr :: rest =>
    if layerSkip lyr then docIndexes (i + 1) rest else i :: docIndexes (i + 1) rest

/-- Is this value not a dict? -/
def notRecordB : Value → Bool
  | .record _ => false
  | _ => true

/-- No pair of the dict keys `PE_Spc_Number` to a dict value. -/
def peAllNonRecordB (d : Dict) : Bool :=
  d.all fun p => p.1 ≠ "PE_Spc_Number" || notRecordB p.2

/-- Every registry entry of a completed parse satisfies
`peAllNonRecordB`. -/
def peCondB : Option DocumentModel → Bool
  | some m => m.Elements.all peAllNonRecordB
  | none => true

/-- Drop the field distinguishing the two variants from a reference. -/
def scrubRef (r : LayerRef) : LayerRef :=
  { r with PE := none }

def scrubLayer (L : Layer) : Layer :=
  { L with Elements := L.Elements.map scrubRef }

/-- Drop every `PE_Spc_Number` top-level field from the model: the
projection on which the two variants are compared. -/
def scrubModel (m : DocumentModel) : DocumentModel :=
  { m with Elements := m.Elements.map (fun d => dictErase d "PE_Spc_Number"),
           Layers := m.Layers.map scrubLayer }

end XADF

namespace XADF

/-! Helper lemmas. -/

theorem etdChildren_append (xs ys : List RawNode) (d : Dict) :
    etdChildren (xs ++ ys) d = etdChildren ys (etdChildren xs d) := by
  induction xs generalizing d with
  | nil => rfl
  | cons c rest ih =>
    cases c with
    | mk t a x subcs =>
      simp only [List.cons_append, etdChildren]
      by_cases h : t = "ClassInstance"
      · rw [if_pos h, if_pos h]
        exact ih _
      · rw [if_neg h, if_neg h]
        exact ih _

theorem etdSubs_eq_etdChildren (ss : List RawNode) (d : Dict)
    (h : ∀ s ∈ ss, s.tag ≠ "ClassInstance" ∧ s.children ≠ []) :
    etdSubs ss d = etdChildren ss d := by
  induction ss generalizing d with
  | nil => rfl
  | cons s rest ih =>
    cases s with
    | mk t a x subcs =>
      obtain ⟨ht, hc⟩ := h _ (List.mem_cons_self _ _)
      simp only [RawNode.tag] at ht
      simp only [RawNode.children] at hc
      have hsub : subcs.isEmpty = false := by
        cases subcs
        · exact absurd rfl hc
        · rfl
      simp only [etdSubs, etdChildren, RawNode.tag]
      rw [if_neg ht, hsub]
      simp only [Bool.false_eq_true, if_false]
      exact ih _ (fun s hs => h s (List.mem_cons_of_mem _ hs))

/-! Claim theorems. -/

/-- Claim C1 (code-bug evidence): on the spec's own scenario — a layer
element reference with `GlobalElementIndex="7"` while the Global Element
Registry has only 3 entries — `parse_xadf` does NOT degrade gracefully:
`element_lookup.get(int(gi))` has no default, returns `None`, and the
following `ei.get("ElementSymbol", "?")` raises `AttributeError` in both
variants (modelled as `none`). -/
theorem c1_out_of_range_index_raises :
    parse_xadf_v9 c1tree = none ∧ parse_xadf_v3 c1tree = none :=
  ⟨rfl, rfl⟩

/-- Claim C2 (counterexample): flattening a tree with one wrapper layer
around the leaf `<Foo>bar</Foo>` does NOT equal flattening the tree with
the wrapper removed: the wrapper branch maps the leaf to
`element_to_dict(sub) = {}` rather than to its text. -/
theorem c2_counterexample :
    element_to_dict c2wrapped ≠ element_to_dict c2plain := by
  have h1 : element_to_dict c2wrapped = [("Foo", Value.record [])] := rfl
  have h2 : element_to_dict c2plain = [("Foo", Value.scalar "bar")] := rfl
  rw [h1, h2]
  simp

/-- Claim C2 (amended): wrapper unwrapping is one level, and the child
inserted for each node under the wrapper is always its dict flattening;
so removing a wrapper layer preserves the flattening exactly when every
node directly under the wrapper is a non-wrapper node that has children
of its own (for a leaf or a nested wrapper directly under a wrapper the
two trees flatten differently). -/
theorem c2_one_level_unwrap (t : String) (a x : Option String) (pre post : List RawNode)
    (c : RawNode) (hc : c.tag = "ClassInstance")
    (hsubs : ∀ s ∈ c.children, s.tag ≠ "ClassInstance" ∧ s.children ≠ []) :
    element_to_dict (.mk t a x (pre ++ c :: post)) =
      element_to_dict (.mk t a x (pre ++ c.children ++ post)) := by
  cases c with
  | mk ct ca cx ccs =>
    simp only [RawNode.tag] at hc
    subst hc
    show etdChildren (pre ++ .mk "ClassInstance" ca cx ccs :: post) [] =
      etdChildren ((pre ++ ccs) ++ post) []
    rw [etdChildren_append, etdChildren_append, etdChildren_append]
    simp only [etdChildren, if_true]
    rw [etdSubs_eq_etdChildren ccs _ hsubs]

/-- Claim C2 (witness): a wrapper whose single child is a non-wrapper
node with children is transparent. -/
theorem c2_witness :
    element_to_dict (.mk "R" none none
        [RawNode.mk "ClassInstance" none none [branchNode "MParam" [leafNode "HV" "50"]]]) =
      element_to_dict (.mk "R" none none [branchNode "MParam" [leafNode "HV" "50"]]) :=
  c2_one_level_unwrap "R" none none [] []
    (RawNode.mk "ClassInstance" none none [branchNode "MParam" [leafNode "HV" "50"]]) rfl
    (by
      intro s hs
      simp only [RawNode.children, List.mem_singleton] at hs
      subst hs
      exact ⟨by decide, List.cons_ne_nil _ _⟩)

/-- Claim C5: `translate_used_lines` maps `"3,4,99"` to
`["K_alpha1","K_alpha2","Line99"]`, empty or absent input to `[]`,
the malformed `"x,3"` to `[]`, and in general any input one of whose
kept tokens is not accepted by `int(x)` degrades whole to `[]`. -/
theorem c5_translate_line_codes :
    translate_used_lines (.scalar "3,4,99") = ["K_alpha1", "K_alpha2", "Line99"] ∧
    translate_used_lines (.scalar "") = [] ∧
    translate_used_lines .absent = [] ∧
    translate_used_lines (.scalar "x,3") = [] ∧
    ∀ s : String, (∃ t ∈ usedLineTokens s, pyInt t.data = none) →
      translate_used_lines (.scalar s) = [] := by
  refine ⟨rfl, rfl, rfl, rfl, ?_⟩
  intro s ht
  obtain ⟨t, htm, htn⟩ := ht
  show (if s = "" then []
    else
      if (usedLineTokens s).all (fun t => (pyInt t.data).isSome) then
        List.map translateTok (usedLineTokens s)
      else []) = []
  by_cases hs : s = ""
  · rw [if_pos hs]
  · rw [if_neg hs]
    have hall : (usedLineTokens s).all (fun t => (pyInt t.data).isSome) = false := by
      rw [List.all_eq_false]
      exact ⟨t, htm, by simp [htn]⟩
    simp only [hall, Bool.false_eq_true, if_false]

/-- Claim C5 (witness): a malformed token degrades the whole field. -/
theorem c5_witness : translate_used_lines (.scalar "y,7") = [] :=
  c5_translate_line_codes.2.2.2.2 "y,7" ⟨"y", by decide, by decide⟩

/-- Claim C6: a layer subtree that flattens to an empty record contributes
no entry to `Layers`, and the remaining subtrees are processed exactly as
they would have been (with the `enumerate` counter still advanced), in
both variants. -/
theorem c6_empty_layer_skipped (lk : List Dict) (lyr : RawNode) (rest : List RawNode) (i : Nat)
    (h : element_to_dict lyr = []) :
    processLayersV9 lk (lyr :: rest) i = processLayersV9 lk rest (i + 1) ∧
    processLayersV3 lk (lyr :: rest) i = processLayersV3 lk rest (i + 1) := by
  constructor
  · simp only [processLayersV9, h, layerHeadVal, Value.truthy]
    rfl
  · simp only [processLayersV3, h, layerHeadVal, Value.truthy]
    rfl

/-- Claim C6 (witness): an empty `SingleLayer` subtree. -/
theorem c6_witness :
    processLayersV9 [] [classInst "TXS2_XADFMgr_SingleLayer" []] 1 = processLayersV9 [] [] 2 ∧
    processLayersV3 [] [classInst "TXS2_XADFMgr_SingleLayer" []] 1 = processLayersV3 [] [] 2 :=
  c6_empty_layer_skipped [] (classInst "TXS2_XADFMgr_SingleLayer" []) [] 1 rfl

/-- Claim C9: `parse_xadf` is deterministic — two runs of either variant
on the same input tree produce equal document models (hence equal
serializations). -/
theorem c9_deterministic (root : RawNode) (m1 m2 m3 m4 : DocumentModel)
    (h1 : parse_xadf_v9 root = some m1) (h2 : parse_xadf_v9 root = some m2)
    (h3 : parse_xadf_v3 root = some m3) (h4 : parse_xadf_v3 root = some m4) :
    m1 = m2 ∧ m3 = m4 := by
  rw [h1] at h2
  rw [h3] at h4
  exact ⟨Option.some.inj h2, Option.some.inj h4⟩

/-- Claim C9 (witness): two runs on a trivial document. -/
theorem c9_witness :
    (⟨none, [], none, [], []⟩ : DocumentModel) = ⟨none, [], none, [], []⟩ ∧
    (⟨none, [], none, [], []⟩ : DocumentModel) = ⟨none, [], none, [], []⟩ :=
  c9_deterministic (.mk "R" none none []) _ _ _ _ rfl rfl rfl rfl

end XADF

namespace XADF

theorem linesStep_getD (acc v : Value) : linesStep acc v = (elOf v).getD acc := by
  cases v with
  | record r =>
    simp only [linesStep, elOf]
    cases dictLookup r "EmissionLines" <;> rfl
  | scalar s => rfl
  | strList l => rfl
  | absent => rfl

theorem getLast?_cons_exists {α : Type} (b : α) (l : List α) :
    ∃ y, (b :: l).getLast? = some y := by
  induction l generalizing b with
  | nil => exact ⟨b, rfl⟩
  | cons c l2 ih =>
    rw [List.getLast?_cons_cons]
    exact ih c

theorem foldl_linesStep_getLast (vals : List Value) (acc : Value) :
    vals.foldl linesStep acc = ((vals.filterMap elOf).getLast?).getD acc := by
  induction vals generalizing acc with
  | nil => rfl
  | cons v vs ih =>
    rw [List.foldl_cons, ih, linesStep_getD]
    cases he : elOf v with
    | none =>
      rw [List.filterMap_cons_none he]
      simp only [Option.getD_none]
    | some e =>
      rw [List.filterMap_cons_some he]
      simp only [Option.getD_some]
      cases hfm : vs.filterMap elOf with
      | nil => rfl
      | cons b l2 =>
        rw [List.getLast?_cons_cons]
        obtain ⟨y, hy⟩ := getLast?_cons_exists b l2
        rw [hy]
        rfl

/-- Claim C3 (amended): the `Lines` scan of `parse_xadf` (the
`for sub in ei.values()` loop reassigning `lines`, with no `break`)
attaches the `EmissionLines` of the LAST value of the resolved identity
record that carries one — not the first — and the empty sequence when no
value carries one. -/
theorem c3_lines_last_wins (vals : List Value) :
    linesScan vals = ((vals.filterMap elOf).getLast?).getD (.strList []) :=
  foldl_linesStep_getLast vals _

/-- Claim C3 (counterexample): on a registry entry with two nested records
carrying `EmissionLines` `["K_alpha1"]` and then `["K_alpha2"]`, the
merged reference's `Lines` is the second (last) one, not the first. -/
theorem c3_counterexample :
    (parse_xadf_v9 c3tree).map
        (fun m => (dictValues (m.Elements.headD [])).filterMap elOf) =
      some [.strList ["K_alpha1"], .strList ["K_alpha2"]] ∧
    firstLayerFirstRefLines (parse_xadf_v9 c3tree) = some (.strList ["K_alpha2"]) ∧
    Value.strList ["K_alpha2"] ≠ Value.strList ["K_alpha1"] := by
  refine ⟨rfl, rfl, ?_⟩
  intro h
  simp at h

theorem processLayersV9_indexes (lk : List Dict) (lyrs : List RawNode) (i : Nat)
    (out : List Layer) (h : processLayersV9 lk lyrs i = some out) :
    out.map Layer.Index = docIndexes i lyrs := by
  induction lyrs generalizing i out with
  | nil =>
    cases h
    rfl
  | cons lyr rest ih =>
    rw [docIndexes]
    simp only [processLayersV9] at h
    by_cases hs : layerSkip lyr
    · rw [if_pos hs]
      have htr : (layerHeadVal (element_to_dict lyr)).truthy = false := by
        unfold layerSkip at hs
        simpa using hs
      rw [htr] at h
      simp only [Bool.false_eq_true, if_false] at h
      exact ih _ _ h
    · rw [if_neg hs]
      have htr : (layerHeadVal (element_to_dict lyr)).truthy = true := by
        unfold layerSkip at hs
        simpa using hs
      rw [htr] at h
      simp only [if_true] at h
      cases hd : layerHeadVal (element_to_dict lyr) with
      | record r =>
        rw [hd] at h
        dsimp only [] at h
        cases hr : refsV9 lk r with
        | none => rw [hr] at h; cases h
        | some refs =>
          rw [hr] at h
          dsimp only [] at h
          cases hrest : processLayersV9 lk rest (i + 1) with
          | none => rw [hrest] at h; cases h
          | some ls =>
            rw [hrest] at h
            dsimp only [] at h
            cases h
            simp only [List.map_cons]
            rw [ih _ _ hrest]
      | scalar s => rw [hd] at h; cases h
      | strList l => rw [hd] at h; cases h
      | absent => rw [hd] at h; cases h

theorem docIndexes_lb (lyrs : List RawNode) (i : Nat) :
    ∀ j ∈ docIndexes i lyrs, i ≤ j := by
  induction lyrs generalizing i with
  | nil => intro j hj; cases hj
  | cons lyr rest ih =>
    intro j hj
    rw [docIndexes] at hj
    by_cases hs : layerSkip lyr
    · rw [if_pos hs] at hj
      exact le_trans (Nat.le_succ i) (ih (i + 1) j hj)
    · rw [if_neg hs] at hj
      rcases List.mem_cons.mp hj with h1 | h2
      · exact h1 ▸ le_refl i
      · exact le_trans (Nat.le_succ i) (ih _ _ h2)

theorem docIndexes_chain (lyrs : List RawNode) (i : Nat) :
    List.Chain' (· < ·) (docIndexes i lyrs) := by
  induction lyrs generalizing i with
  | nil => exact List.chain'_nil
  | cons lyr rest ih =>
    rw [docIndexes]
    by_cases hs : layerSkip lyr
    · rw [if_pos hs]
      exact ih _
    · rw [if_neg hs]
      rw [List.chain'_cons']
      refine ⟨fun y hy => ?_, ih _⟩
      have := docIndexes_lb rest (i + 1) y (List.mem_of_mem_head? hy)
      omega

/-- Split a successful v9 parse into its phases. -/
theorem parse_v9_parts (root : RawNode) (m : DocumentModel)
    (h : parse_xadf_v9 root = some m) :
    mparamPhase root = some m.MeasurementParameters ∧
    m.Info = (findFirst root "TXS2_XADFMgr_Info").map element_to_dict ∧
    m.CalculationParameters = calcPhase root ∧
    optionMapList processElementV9 (findall root "TXS2_XADFMgr_SingleElement") =
        some m.Elements ∧
    processLayersV9 m.Elements (findall root "TXS2_XADFMgr_SingleLayer") 1 = some m.Layers := by
  unfold parse_xadf_v9 at h
  cases hmp : mparamPhase root with
  | none => rw [hmp] at h; cases h
  | some mp =>
    rw [hmp] at h
    dsimp only [] at h
    cases hels : optionMapList processElementV9 (findall root "TXS2_XADFMgr_SingleElement") with
    | none => rw [hels] at h; cases h
    | some els =>
      rw [hels] at h
      dsimp only [] at h
      cases hlys : processLayersV9 els (findall root "TXS2_XADFMgr_SingleLayer") 1 with
      | none => rw [hlys] at h; cases h
      | some lys =>
        rw [hlys] at h
        dsimp only [] at h
        cases h
        exact ⟨rfl, rfl, rfl, rfl, hlys⟩

/-- Split a successful v3 parse into its phases. -/
theorem parse_v3_parts (root : RawNode) (m : DocumentModel)
    (h : parse_xadf_v3 root = some m) :
    mparamPhase root = some m.MeasurementParameters ∧
    m.Info = (findFirst root "TXS2_XADFMgr_Info").map element_to_dict ∧
    m.CalculationParameters = calcPhase root ∧
    optionMapList processElementV3 (findall root "TXS2_XADFMgr_SingleElement") =
        some m.Elements ∧
    processLayersV3 m.Elements (findall root "TXS2_XADFMgr_SingleLayer") 1 = some m.Layers := by
  unfold parse_xadf_v3 at h
  cases hmp : mparamPhase root with
  | none => rw [hmp] at h; cases h
  | some mp =>
    rw [hmp] at h
    dsimp only [] at h
    cases hels : optionMapList processElementV3 (findall root "TXS2_XADFMgr_SingleElement") with
    | none => rw [hels] at h; cases h
    | some els =>
      rw [hels] at h
      dsimp only [] at h
      cases hlys : processLayersV3 els (findall root "TXS2_XADFMgr_SingleLayer") 1 with
      | none => rw [hlys] at h; cases h
      | some lys =>
        rw [hlys] at h
        dsimp only [] at h
        cases h
        exact ⟨rfl, rfl, rfl, rfl, hlys⟩

/-- Claim C4 (amended): each emitted layer's `Index` is the 1-based
document-order position of its subtree among ALL matched layer subtrees —
skipped subtrees advance the counter and leave gaps — so the `Index`
sequence is strictly increasing, and equals `i+1` at position `i` only
when no subtree was skipped. -/
theorem c4_layer_indexes (root : RawNode) (m : DocumentModel)
    (h : parse_xadf_v9 root = some m) :
    m.Layers.map Layer.Index = docIndexes 1 (findall root "TXS2_XADFMgr_SingleLayer") ∧
    List.Chain' (· < ·) (m.Layers.map Layer.Index) := by
  obtain ⟨-, -, -, hels, hlys⟩ := parse_v9_parts root m h
  refine ⟨processLayersV9_indexes _ _ _ _ hlys, ?_⟩
  rw [processLayersV9_indexes _ _ _ _ hlys]
  exact docIndexes_chain _ _

/-- Claim C4 (counterexample): when the first layer subtree is skipped,
the first emitted layer has `Index = 2`, not `0 + 1`. -/
theorem c4_counterexample :
    layersIndexList (parse_xadf_v9 c4tree) = some [2] ∧ (2 : Nat) ≠ 0 + 1 :=
  ⟨rfl, by decide⟩

/-- Claim C4 (witness): the amended index law on a concrete document with
a skipped first layer. -/
theorem c4_witness :
    ([⟨2, Value.scalar "top", Value.absent, Value.absent, []⟩] : List Layer).map Layer.Index =
        docIndexes 1 (findall c4tree "TXS2_XADFMgr_SingleLayer") ∧
    List.Chain' (· < ·)
      (([⟨2, Value.scalar "top", Value.absent, Value.absent, []⟩] : List Layer).map
        Layer.Index) :=
  c4_layer_indexes c4tree
    ⟨none, [], none, [], [⟨2, Value.scalar "top", Value.absent, Value.absent, []⟩]⟩ rfl

theorem optionMapList_get (f : RawNode → Option Dict) (es : List RawNode) (out : List Dict)
    (h : optionMapList f es = some out) :
    out.length = es.length ∧ ∀ i : Nat, (es.get? i).bind f = out.get? i := by
  induction es generalizing out with
  | nil =>
    cases h
    exact ⟨rfl, fun i => by cases i <;> rfl⟩
  | cons e rest ih =>
    unfold optionMapList at h
    cases hf : f e with
    | none => rw [hf] at h; cases h
    | some d =>
      rw [hf] at h
      cases hr : optionMapList f rest with
      | none => rw [hr] at h; cases h
      | some ds =>
        rw [hr] at h
        cases h
        obtain ⟨hl, hp⟩ := ih ds hr
        refine ⟨by simp [hl], fun i => ?_⟩
        cases i with
        | zero => simpa using hf
        | succ n => simpa using hp n

/-- Claim C10: every matched element subtree contributes exactly one
registry entry at its zero-based document-order position (empty entries
are kept, not skipped), so positional cross-referencing always addresses
the subtree's document-order position. -/
theorem c10_registry_positions (root : RawNode) (m : DocumentModel)
    (h : parse_xadf_v9 root = some m) :
    m.Elements.length = (findall root "TXS2_XADFMgr_SingleElement").length ∧
    ∀ i : Nat,
      ((findall root "TXS2_XADFMgr_SingleElement").get? i).bind processElementV9 =
        m.Elements.get? i := by
  obtain ⟨-, -, -, hels, -⟩ := parse_v9_parts root m h
  exact optionMapList_get _ _ _ hels

/-- Claim C10 (witness): one empty element subtree still contributes its
(empty) registry entry at position 0. -/
theorem c10_witness :
    ([[]] : List Dict).length =
        (findall (branchNode "R" [classInst "TXS2_XADFMgr_SingleElement" []])
          "TXS2_XADFMgr_SingleElement").length ∧
    ((findall (branchNode "R" [classInst "TXS2_XADFMgr_SingleElement" []])
          "TXS2_XADFMgr_SingleElement").get? 0).bind processElementV9 =
      ([[]] : List Dict).get? 0 :=
  ⟨(c10_registry_positions (branchNode "R" [classInst "TXS2_XADFMgr_SingleElement" []])
      ⟨none, [], none, [[]], []⟩ rfl).1,
   (c10_registry_positions (branchNode "R" [classInst "TXS2_XADFMgr_SingleElement" []])
      ⟨none, [], none, [[]], []⟩ rfl).2 0⟩

/-- Claim C7: deriving a symbol from a digit-string atomic number via the
`ELEMENTS` table yields a non-placeholder symbol whose 1-based table
position equals the atomic number for values `1..92`, and the placeholder
`"?"` outside that range. -/
theorem c7_symbol_roundtrip (s : String) (_hd : pyIsDigit s = true) :
    ((1 ≤ pyNatOf s ∧ pyNatOf s ≤ 92) →
      elementsGet (pyNatOf s) ≠ "?" ∧
      ELEMENTS_LIST.indexOf (elementsGet (pyNatOf s)) + 1 = pyNatOf s) ∧
    ((pyNatOf s = 0 ∨ 93 ≤ pyNatOf s) → elementsGet (pyNatOf s) = "?") := by
  have key : ∀ n : Nat, n < 93 → 1 ≤ n →
      elementsGet n ≠ "?" ∧ ELEMENTS_LIST.indexOf (elementsGet n) + 1 = n := by decide
  have hlen : ELEMENTS_LIST.length = 92 := rfl
  constructor
  · rintro ⟨h1, h2⟩
    exact key _ (by omega) h1
  · rintro (h | h)
    · rw [h]
      rfl
    · unfold elementsGet
      rw [if_neg (by omega), List.get?_eq_none.mpr (by rw [hlen]; omega)]
      rfl

/-- Claim C7 (witness): `Z = 26` gives iron at position 26; `Z = 93` gives
the placeholder. -/
theorem c7_witness :
    (elementsGet (pyNatOf "26") ≠ "?" ∧
     ELEMENTS_LIST.indexOf (elementsGet (pyNatOf "26")) + 1 = pyNatOf "26") ∧
    elementsGet (pyNatOf "93") = "?" :=
  ⟨(c7_symbol_roundtrip "26" rfl).1 (by decide),
   (c7_symbol_roundtrip "93" rfl).2 (by decide)⟩

end XADF

namespace XADF

/-! Dictionary lemmas for the variant comparison (claim C8). -/

theorem dictLookup_cons (k0 : String) (v0 : Value) (rest : Dict) (k : String) :
    dictLookup ((k0, v0) :: rest) k = if k0 = k then some v0 else dictLookup rest k := rfl

theorem dictInsert_cons (k0 : String) (v0 : Value) (rest : Dict) (k : String) (v : Value) :
    dictInsert ((k0, v0) :: rest) k v =
      if k0 = k then (k0, v) :: rest else (k0, v0) :: dictInsert rest k v := rfl

theorem dictErase_cons_eq (v0 : Value) (rest : Dict) (k : String) :
    dictErase ((k, v0) :: rest) k = dictErase rest k := by
  simp [dictErase, List.filter_cons]

theorem dictErase_cons_ne (k0 : String) (v0 : Value) (rest : Dict) (k : String) (h : k0 ≠ k) :
    dictErase ((k0, v0) :: rest) k = (k0, v0) :: dictErase rest k := by
  simp [dictErase, List.filter_cons, h]

theorem translateStep_cons (k0 : String) (v0 : Value) (rest : Dict) :
    translateStep ((k0, v0) :: rest) = (k0, translateVal v0) :: translateStep rest := rfl

theorem dictLookup_dictInsert_self (d : Dict) (k : String) (v : Value) :
    dictLookup (dictInsert d k v) k = some v := by
  induction d with
  | nil => simp [dictInsert, dictLookup]
  | cons p rest ih =>
    obtain ⟨k0, v0⟩ := p
    rw [dictInsert_cons]
    by_cases h : k0 = k
    · rw [if_pos h, dictLookup_cons, if_pos h]
    · rw [if_neg h, dictLookup_cons, if_neg h]
      exact ih

theorem dictLookup_translateStep (d : Dict) (k : String) :
    dictLookup (translateStep d) k = (dictLookup d k).map translateVal := by
  induction d with
  | nil => rfl
  | cons p rest ih =>
    obtain ⟨k0, v0⟩ := p
    rw [translateStep_cons, dictLookup_cons, dictLookup_cons]
    by_cases h : k0 = k
    · rw [if_pos h, if_pos h]
      rfl
    · rw [if_neg h, if_neg h]
      exact ih

theorem dictLookup_mem (d : Dict) (k : String) (v : Value)
    (h : dictLookup d k = some v) : (k, v) ∈ d := by
  induction d with
  | nil => cases h
  | cons p rest ih =>
    obtain ⟨k0, v0⟩ := p
    rw [dictLookup_cons] at h
    by_cases hk : k0 = k
    · rw [if_pos hk] at h
      cases h
      subst hk
      exact List.mem_cons_self _ _
    · rw [if_neg hk] at h
      exact List.mem_cons_of_mem _ (ih h)

theorem dictErase_translateStep_dictInsert (b : Dict) (k : String) (v : Value) :
    dictErase (translateStep (dictInsert b k v)) k = dictErase (translateStep b) k := by
  induction b with
  | nil =>
    show dictErase [(k, translateVal v)] k = dictErase [] k
    rw [dictErase_cons_eq]
  | cons p rest ih =>
    obtain ⟨k0, v0⟩ := p
    rw [dictInsert_cons]
    by_cases h : k0 = k
    · subst h
      rw [if_pos rfl, translateStep_cons, translateStep_cons, dictErase_cons_eq,
        dictErase_cons_eq]
    · rw [if_neg h, translateStep_cons, translateStep_cons, dictErase_cons_ne _ _ _ _ h,
        dictErase_cons_ne _ _ _ _ h, ih]

theorem dictLookup_dictErase_ne (d : Dict) (k k2 : String) (h : k2 ≠ k) :
    dictLookup (dictErase d k) k2 = dictLookup d k2 := by
  induction d with
  | nil => rfl
  | cons p rest ih =>
    obtain ⟨k0, v0⟩ := p
    by_cases hk : k0 = k
    · subst hk
      rw [dictErase_cons_eq, dictLookup_cons, if_neg (fun hh => h hh.symm)]
      exact ih
    · rw [dictErase_cons_ne _ _ _ _ hk, dictLookup_cons, dictLookup_cons]
      by_cases h2 : k0 = k2
      · rw [if_pos h2, if_pos h2]
      · rw [if_neg h2, if_neg h2]
        exact ih

theorem linesStep_notRecord (acc v : Value) (h : notRecordB v = true) :
    linesStep acc v = acc := by
  cases v with
  | record r => cases h
  | scalar s => rfl
  | strList l => rfl
  | absent => rfl

theorem foldl_linesStep_dictErase (d : Dict) (k : String)
    (h : ∀ p ∈ d, p.1 = k → notRecordB p.2 = true) (acc : Value) :
    (dictValues (dictErase d k)).foldl linesStep acc = (dictValues d).foldl linesStep acc := by
  induction d generalizing acc with
  | nil => rfl
  | cons p rest ih =>
    obtain ⟨k0, v0⟩ := p
    by_cases hk : k0 = k
    · subst hk
      rw [dictErase_cons_eq]
      have hv0 : linesStep acc v0 = acc :=
        linesStep_notRecord acc v0 (h (k0, v0) (List.mem_cons_self _ _) rfl)
      simp only [dictValues, List.map_cons, List.foldl_cons, hv0]
      exact ih (fun p hp hpk => h p (List.mem_cons_of_mem _ hp) hpk) acc
    · rw [dictErase_cons_ne _ _ _ _ hk]
      simp only [dictValues, List.map_cons, List.foldl_cons]
      exact ih (fun p hp hpk => h p (List.mem_cons_of_mem _ hp) hpk) _

/-- `linesScan` ignores the erased `PE_Spc_Number` pairs when their values
are not dicts. -/
theorem linesScan_dictErase (d : Dict) (k : String)
    (h : ∀ p ∈ d, p.1 = k → notRecordB p.2 = true) :
    linesScan (dictValues d) = linesScan (dictValues (dictErase d k)) :=
  (foldl_linesStep_dictErase d k h _).symm

theorem peAllNonRecordB_spec (d : Dict) (h : peAllNonRecordB d = true) :
    ∀ p ∈ d, p.1 = "PE_Spc_Number" → notRecordB p.2 = true := by
  intro p hp hpk
  have := List.all_eq_true.mp h p hp
  rcases Bool.or_eq_true_iff.mp this with h1 | h2
  · exact absurd hpk (by simpa using h1)
  · exact h2

end XADF

namespace XADF

/-! Element-phase lemmas for the variant comparison. -/

theorem translateVal_record (r : List (String × Value)) :
    ∃ r2, translateVal (Value.record r) = Value.record r2 := by
  show ∃ r2, (if containsKey r "UsedLines" = true then
      Value.record (dictInsert r "EmissionLines"
        (Value.strList (translate_used_lines (pyGet r "UsedLines"))))
    else Value.record r) = Value.record r2
  by_cases hc : containsKey r "UsedLines" = true
  · exact ⟨_, by rw [if_pos hc]⟩
  · exact ⟨r, by rw [if_neg hc]⟩

theorem hoistFindAux_get (l : List (String × Value)) (j i : Nat) (k : String) (pe : Value)
    (h : hoistFindAux l j = some (i, k, pe)) :
    j ≤ i ∧ ∃ r, l.get? (i - j) = some (k, Value.record r) ∧
      dictLookup r "PE_Spc_Number" = some pe := by
  induction l generalizing j with
  | nil => cases h
  | cons p rest ih =>
    obtain ⟨k0, v0⟩ := p
    cases v0 with
    | record r0 =>
      simp only [hoistFindAux] at h
      cases hpe : dictLookup r0 "PE_Spc_Number" with
      | some pe0 =>
        rw [hpe] at h
        dsimp only [] at h
        cases h
        exact ⟨le_refl _, r0, by simp, hpe⟩
      | none =>
        rw [hpe] at h
        dsimp only [] at h
        obtain ⟨hle, r, hget, hlook⟩ := ih (j + 1) h
        refine ⟨by omega, r, ?_, hlook⟩
        have harith : i - j = (i - (j + 1)) + 1 := by omega
        rw [harith]
        simpa using hget
    | scalar s =>
      simp only [hoistFindAux] at h
      obtain ⟨hle, r, hget, hlook⟩ := ih (j + 1) h
      refine ⟨by omega, r, ?_, hlook⟩
      have harith : i - j = (i - (j + 1)) + 1 := by omega
      rw [harith]
      simpa using hget
    | strList l0 =>
      simp only [hoistFindAux] at h
      obtain ⟨hle, r, hget, hlook⟩ := ih (j + 1) h
      refine ⟨by omega, r, ?_, hlook⟩
      have harith : i - j = (i - (j + 1)) + 1 := by omega
      rw [harith]
      simpa using hget
    | absent =>
      simp only [hoistFindAux] at h
      obtain ⟨hle, r, hget, hlook⟩ := ih (j + 1) h
      refine ⟨by omega, r, ?_, hlook⟩
      have harith : i - j = (i - (j + 1)) + 1 := by omega
      rw [harith]
      simpa using hget

theorem dictInsert_get?_ne (d : Dict) (key : String) (v : Value) (i : Nat) (k : String)
    (w : Value) (hget : d.get? i = some (k, w)) (hk : k ≠ key) :
    (dictInsert d key v).get? i = some (k, w) := by
  induction d generalizing i with
  | nil => cases hget
  | cons p rest ih =>
    obtain ⟨k0, v0⟩ := p
    rw [dictInsert_cons]
    by_cases h : k0 = key
    · rw [if_pos h]
      cases i with
      | zero =>
        rw [List.get?_cons_zero] at hget
        cases hget
        exact absurd h hk
      | succ n =>
        rw [List.get?_cons_succ] at hget
        rw [List.get?_cons_succ]
        exact hget
    · rw [if_neg h]
      cases i with
      | zero =>
        rw [List.get?_cons_zero] at hget ⊢
        exact hget
      | succ n =>
        rw [List.get?_cons_succ] at hget ⊢
        exact ih n hget

theorem translateStep_get? (d : Dict) (i : Nat) :
    (translateStep d).get? i = (d.get? i).map (fun p => (p.1, translateVal p.2)) :=
  List.get?_map _ d i

theorem dictLookup_set (d : Dict) (i : Nat) (k : String) (w w2 : Value) (key : String)
    (hget : d.get? i = some (k, w)) (hk : k ≠ key) :
    dictLookup (d.set i (k, w2)) key = dictLookup d key := by
  induction d generalizing i with
  | nil => cases hget
  | cons p rest ih =>
    obtain ⟨k0, v0⟩ := p
    cases i with
    | zero =>
      rw [List.get?_cons_zero] at hget
      cases hget
      rw [List.set_cons_zero, dictLookup_cons, dictLookup_cons,
        if_neg (fun hh => hk hh), if_neg (fun hh => hk hh)]
    | succ n =>
      rw [List.get?_cons_succ] at hget
      rw [List.set_cons_succ, dictLookup_cons, dictLookup_cons]
      by_cases h0 : k0 = key
      · rw [if_pos h0, if_pos h0]
      · rw [if_neg h0, if_neg h0]
        exact ih n hget

theorem dictLookup_writeBack (d : Dict) (i : Nat) (k : String) (w : Value) (key : String)
    (hget : d.get? i = some (k, w)) (hk : k ≠ key) :
    dictLookup (writeBack d i) key = dictLookup d key := by
  unfold writeBack
  rw [hget]
  cases w with
  | record r =>
    dsimp only []
    cases hl : dictLookup d "PE_Spc_Number" with
    | some pe =>
      dsimp only []
      exact dictLookup_set d i k (Value.record r) _ key hget hk
    | none => rfl
  | scalar s => rfl
  | strList l0 => rfl
  | absent => rfl

theorem processElement_erase_eq (e : RawNode) (d9 d3 : Dict)
    (h9 : processElementV9 e = some d9) (h3 : processElementV3 e = some d3)
    (hpe : peAllNonRecordB d9 = true) :
    dictErase d9 "PE_Spc_Number" = dictErase d3 "PE_Spc_Number" := by
  unfold processElementV9 at h9
  unfold processElementV3 at h3
  cases hfv : firstValRecord (element_to_dict e) with
  | none => rw [hfv] at h9; cases h9
  | some se0 =>
    rw [hfv] at h9 h3
    dsimp only [] at h9 h3
    cases hz : digitSymbolStep se0 "Z" "ElementSymbol" with
    | none => rw [hz] at h9; cases h9
    | some se1 =>
      rw [hz] at h9 h3
      dsimp only [] at h9 h3
      cases h3
      cases hh : hoistFind se1 with
      | none =>
        rw [hh] at h9
        dsimp only [] at h9
        cases h9
        rfl
      | some t =>
        obtain ⟨i, k, pe⟩ := t
        rw [hh] at h9
        dsimp only [] at h9
        cases pe with
        | absent =>
          cases h9
          rfl
        | scalar s =>
          cases h9
          exact dictErase_translateStep_dictInsert se1 _ _
        | strList l0 =>
          cases h9
          exact dictErase_translateStep_dictInsert se1 _ _
        | record rp =>
          exfalso
          obtain ⟨hle, r1, hget1, hlook1⟩ := hoistFindAux_get se1 0 i k (Value.record rp) hh
          cases h9
          by_cases hkpe : k = "PE_Spc_Number"
          · rw [if_pos hkpe] at hpe
            have hl : dictLookup
                (translateStep (dictInsert se1 "PE_Spc_Number" (Value.record rp)))
                "PE_Spc_Number" = some (translateVal (Value.record rp)) := by
              rw [dictLookup_translateStep, dictLookup_dictInsert_self]
              rfl
            obtain ⟨rp2, hrp2⟩ := translateVal_record rp
            rw [hrp2] at hl
            have hmem := dictLookup_mem _ _ _ hl
            have := peAllNonRecordB_spec _ hpe _ hmem rfl
            cases this
          · rw [if_neg hkpe] at hpe
            have hse1 : se1.get? i = some (k, Value.record r1) := by simpa using hget1
            have hgi : (dictInsert se1 "PE_Spc_Number" (Value.record rp)).get? i =
                some (k, Value.record r1) :=
              dictInsert_get?_ne se1 _ _ i k _ hse1 hkpe
            obtain ⟨r1b, hr1b⟩ := translateVal_record r1
            have hgi2 : (translateStep (dictInsert se1 "PE_Spc_Number"
                (Value.record rp))).get? i = some (k, Value.record r1b) := by
              rw [translateStep_get?, hgi]
              simp [hr1b]
            have hlw : dictLookup
                (writeBack (translateStep (dictInsert se1 "PE_Spc_Number"
                  (Value.record rp))) i) "PE_Spc_Number" =
                dictLookup (translateStep (dictInsert se1 "PE_Spc_Number"
                  (Value.record rp))) "PE_Spc_Number" :=
              dictLookup_writeBack _ i k (Value.record r1b) _ hgi2 hkpe
            have hl : dictLookup
                (translateStep (dictInsert se1 "PE_Spc_Number" (Value.record rp)))
                "PE_Spc_Number" = some (translateVal (Value.record rp)) := by
              rw [dictLookup_translateStep, dictLookup_dictInsert_self]
              rfl
            obtain ⟨rp2, hrp2⟩ := translateVal_record rp
            rw [hrp2] at hl
            have hmem := dictLookup_mem _ _ _ (hlw.trans hl)
            have := peAllNonRecordB_spec _ hpe _ hmem rfl
            cases this

theorem elems_erase_eq (es : List RawNode) (lk9 lk3 : List Dict)
    (h9 : optionMapList processElementV9 es = some lk9)
    (h3 : optionMapList processElementV3 es = some lk3)
    (hc : lk9.all peAllNonRecordB = true) :
    lk9.map (fun d => dictErase d "PE_Spc_Number") =
      lk3.map (fun d => dictErase d "PE_Spc_Number") := by
  induction es generalizing lk9 lk3 with
  | nil =>
    cases h9
    cases h3
    rfl
  | cons e rest ih =>
    unfold optionMapList at h9 h3
    cases hf9 : processElementV9 e with
    | none => rw [hf9] at h9; cases h9
    | some d9 =>
      rw [hf9] at h9
      dsimp only [] at h9
      cases hr9 : optionMapList processElementV9 rest with
      | none => rw [hr9] at h9; cases h9
      | some ds9 =>
        rw [hr9] at h9
        dsimp only [] at h9
        cases h9
        cases hf3 : processElementV3 e with
        | none => rw [hf3] at h3; cases h3
        | some d3 =>
          rw [hf3] at h3
          dsimp only [] at h3
          cases hr3 : optionMapList processElementV3 rest with
          | none => rw [hr3] at h3; cases h3
          | some ds3 =>
            rw [hr3] at h3
            dsimp only [] at h3
            cases h3
            simp only [List.all_cons, Bool.and_eq_true] at hc
            simp only [List.map_cons]
            rw [processElement_erase_eq e d9 d3 hf9 hf3 hc.1, ih ds9 ds3 hr9 hr3 hc.2]

end XADF

namespace XADF

/-! Layer-phase lemmas and the C8 claim. -/

theorem resolveEI_some_rel (gi : Value) (lk9 lk3 : List Dict)
    (hlen : lk9.length = lk3.length) (ei9 ei3 : Dict)
    (h9 : resolveEI gi lk9 = some ei9) (h3 : resolveEI gi lk3 = some ei3) :
    (ei9 = [] ∧ ei3 = []) ∨ ∃ n, lk9.get? n = some ei9 ∧ lk3.get? n = some ei3 := by
  cases gi with
  | absent =>
    cases h9
    cases h3
    exact Or.inl ⟨rfl, rfl⟩
  | scalar s =>
    simp only [resolveEI] at h9 h3
    by_cases hs : s = ""
    · rw [if_pos hs] at h9 h3
      cases h9
      cases h3
      exact Or.inl ⟨rfl, rfl⟩
    · rw [if_neg hs] at h9 h3
      by_cases hdig : pyIsDigit s = true
      · rw [if_pos hdig] at h9 h3
        cases hg9 : lk9.get? (pyNatOf s) with
        | none => rw [hg9] at h9; cases h9
        | some x =>
          rw [hg9] at h9
          dsimp only [] at h9
          cases h9
          cases hg3 : lk3.get? (pyNatOf s) with
          | none => rw [hg3] at h3; cases h3
          | some y =>
            rw [hg3] at h3
            dsimp only [] at h3
            cases h3
            exact Or.inr ⟨pyNatOf s, hg9, hg3⟩
      · rw [if_neg hdig] at h9 h3
        cases h9
        cases h3
        exact Or.inl ⟨rfl, rfl⟩
  | record r =>
    simp only [resolveEI] at h9 h3
    by_cases he : r.isEmpty = true
    · rw [if_pos he] at h9 h3
      cases h9
      cases h3
      exact Or.inl ⟨rfl, rfl⟩
    · rw [if_neg he] at h9
      cases h9
  | strList l0 =>
    simp only [resolveEI] at h9 h3
    by_cases he : l0.isEmpty = true
    · rw [if_pos he] at h9 h3
      cases h9
      cases h3
      exact Or.inl ⟨rfl, rfl⟩
    · rw [if_neg he] at h9
      cases h9

theorem refs_scrub (lk9 lk3 : List Dict)
    (heq : lk9.map (fun d => dictErase d "PE_Spc_Number") =
      lk3.map (fun d => dictErase d "PE_Spc_Number"))
    (hc9 : lk9.all peAllNonRecordB = true) (hc3 : lk3.all peAllNonRecordB = true)
    (ents : List (String × Value)) (rs9 rs3 : List LayerRef)
    (h9 : refsV9 lk9 ents = some rs9) (h3 : refsV3 lk3 ents = some rs3) :
    rs9.map scrubRef = rs3.map scrubRef := by
  induction ents generalizing rs9 rs3 with
  | nil =>
    cases h9
    cases h3
    rfl
  | cons p rest ih =>
    obtain ⟨k, v⟩ := p
    simp only [refsV9] at h9
    simp only [refsV3] at h3
    by_cases hk : pyStartswith k "Element_" = true
    · rw [if_pos hk] at h9 h3
      cases v with
      | record vr =>
        dsimp only [] at h9 h3
        cases hrE9 : resolveEI (pyGet vr "GlobalElementIndex") lk9 with
        | none => rw [hrE9] at h9; cases h9
        | some ei9 =>
          rw [hrE9] at h9
          dsimp only [] at h9
          cases hrE3 : resolveEI (pyGet vr "GlobalElementIndex") lk3 with
          | none => rw [hrE3] at h3; cases h3
          | some ei3 =>
            rw [hrE3] at h3
            dsimp only [] at h3
            cases hrec9 : refsV9 lk9 rest with
            | none => rw [hrec9] at h9; cases h9
            | some rr9 =>
              rw [hrec9] at h9
              dsimp only [] at h9
              cases h9
              cases hrec3 : refsV3 lk3 rest with
              | none => rw [hrec3] at h3; cases h3
              | some rr3 =>
                rw [hrec3] at h3
                dsimp only [] at h3
                cases h3
                have hlen : lk9.length = lk3.length := by
                  have hcl := congrArg List.length heq
                  simpa using hcl
                have htail := ih rr9 rr3 hrec9 hrec3
                simp only [List.map_cons]
                rw [htail]
                rcases resolveEI_some_rel _ _ _ hlen _ _ hrE9 hrE3 with
                  ⟨he9, he3⟩ | ⟨n, hg9, hg3⟩
                · subst he9
                  subst he3
                  rfl
                · have herase : dictErase ei9 "PE_Spc_Number" =
                      dictErase ei3 "PE_Spc_Number" := by
                    have hmap := congrArg (fun l => l.get? n) heq
                    simp only [List.get?_map, hg9, hg3] at hmap
                    exact Option.some.inj hmap
                  have hpe9 : peAllNonRecordB ei9 = true :=
                    List.all_eq_true.mp hc9 _ (List.get?_mem hg9)
                  have hpe3 : peAllNonRecordB ei3 = true :=
                    List.all_eq_true.mp hc3 _ (List.get?_mem hg3)
                  have hES : dictLookup ei9 "ElementSymbol" =
                      dictLookup ei3 "ElementSymbol" := by
                    rw [← dictLookup_dictErase_ne ei9 "PE_Spc_Number" "ElementSymbol"
                        (by decide),
                      ← dictLookup_dictErase_ne ei3 "PE_Spc_Number" "ElementSymbol"
                        (by decide),
                      herase]
                  have hLines : linesScan (dictValues ei9) = linesScan (dictValues ei3) := by
                    rw [linesScan_dictErase ei9 "PE_Spc_Number" (peAllNonRecordB_spec _ hpe9),
                      linesScan_dictErase ei3 "PE_Spc_Number" (peAllNonRecordB_spec _ hpe3),
                      herase]
                  congr 1
                  simp only [scrubRef, hES, hLines]
      | scalar s =>
        dsimp only [] at h9 h3
        exact ih _ _ h9 h3
      | strList l0 =>
        dsimp only [] at h9 h3
        exact ih _ _ h9 h3
      | absent =>
        dsimp only [] at h9 h3
        exact ih _ _ h9 h3
    · rw [if_neg hk] at h9 h3
      exact ih _ _ h9 h3

theorem layers_scrub (lk9 lk3 : List Dict)
    (heq : lk9.map (fun d => dictErase d "PE_Spc_Number") =
      lk3.map (fun d => dictErase d "PE_Spc_Number"))
    (hc9 : lk9.all peAllNonRecordB = true) (hc3 : lk3.all peAllNonRecordB = true)
    (lyrs : List RawNode) (i : Nat) (out9 out3 : List Layer)
    (h9 : processLayersV9 lk9 lyrs i = some out9)
    (h3 : processLayersV3 lk3 lyrs i = some out3) :
    out9.map scrubLayer = out3.map scrubLayer := by
  induction lyrs generalizing i out9 out3 with
  | nil =>
    cases h9
    cases h3
    rfl
  | cons lyr rest ih =>
    simp only [processLayersV9] at h9
    simp only [processLayersV3] at h3
    by_cases htr : (layerHeadVal (element_to_dict lyr)).truthy = true
    · rw [htr] at h9 h3
      simp only [if_true] at h9 h3
      cases hd : layerHeadVal (element_to_dict lyr) with
      | record r =>
        rw [hd] at h9 h3
        dsimp only [] at h9 h3
        cases hr9 : refsV9 lk9 r with
        | none => rw [hr9] at h9; cases h9
        | some refs9 =>
          rw [hr9] at h9
          dsimp only [] at h9
          cases hr3 : refsV3 lk3 r with
          | none => rw [hr3] at h3; cases h3
          | some refs3 =>
            rw [hr3] at h3
            dsimp only [] at h3
            cases hrest9 : processLayersV9 lk9 rest (i + 1) with
            | none => rw [hrest9] at h9; cases h9
            | some ls9 =>
              rw [hrest9] at h9
              dsimp only [] at h9
              cases h9
              cases hrest3 : processLayersV3 lk3 rest (i + 1) with
              | none => rw [hrest3] at h3; cases h3
              | some ls3 =>
                rw [hrest3] at h3
                dsimp only [] at h3
                cases h3
                have htail := ih (i + 1) ls9 ls3 hrest9 hrest3
                have hrefs := refs_scrub lk9 lk3 heq hc9 hc3 r refs9 refs3 hr9 hr3
                simp only [List.map_cons]
                rw [htail]
                congr 1
                simp only [scrubLayer, hrefs]
      | scalar s =>
        rw [hd] at h9
        dsimp only [] at h9
        cases h9
      | strList l0 =>
        rw [hd] at h9
        dsimp only [] at h9
        cases h9
      | absent =>
        rw [hd] at h9
        dsimp only [] at h9
        cases h9
    · have hf : (layerHeadVal (element_to_dict lyr)).truthy = false := by
        cases hb : (layerHeadVal (element_to_dict lyr)).truthy
        · rfl
        · exact absurd hb htr
      rw [hf] at h9 h3
      simp only [Bool.false_eq_true, if_false] at h9 h3
      exact ih (i + 1) _ _ h9 h3

/-- Claim C8 (amended): on every input tree on which both variants
complete and in which no registry entry of either variant carries a
record-valued top-level `PE_Spc_Number` (the hoisted or document-provided
value is a text scalar or absent), the two `parse_xadf` variants agree on
everything except `PE_Spc_Number` fields: after erasing the top-level
`PE_Spc_Number` key of every registry entry and the `PE_Spc_Number`
field of every layer element reference, the document models are equal. -/
theorem c8_variants_agree (root : RawNode)
    (h9 : (parse_xadf_v9 root).isSome = true) (h3 : (parse_xadf_v3 root).isSome = true)
    (hp9 : peCondB (parse_xadf_v9 root) = true)
    (hp3 : peCondB (parse_xadf_v3 root) = true) :
    (parse_xadf_v9 root).map scrubModel = (parse_xadf_v3 root).map scrubModel := by
  obtain ⟨m9, hm9⟩ := Option.isSome_iff_exists.mp h9
  obtain ⟨m3, hm3⟩ := Option.isSome_iff_exists.mp h3
  rw [hm9] at hp9
  rw [hm3] at hp3
  simp only [peCondB] at hp9 hp3
  obtain ⟨hmp9, hinfo9, hcalc9, hels9, hlys9⟩ := parse_v9_parts root m9 hm9
  obtain ⟨hmp3, hinfo3, hcalc3, hels3, hlys3⟩ := parse_v3_parts root m3 hm3
  have hmp : m9.MeasurementParameters = m3.MeasurementParameters :=
    Option.some.inj (hmp9.symm.trans hmp3)
  have heq := elems_erase_eq _ _ _ hels9 hels3 hp9
  have hlay := layers_scrub _ _ heq hp9 hp3 _ 1 _ _ hlys9 hlys3
  rw [hm9, hm3]
  show some (scrubModel m9) = some (scrubModel m3)
  congr 1
  simp only [scrubModel]
  rw [hinfo9, hinfo3, hcalc9, hcalc3, hmp, heq, hlay]

/-- Claim C8 (counterexample): on `c8tree` both variants complete, yet the
first layer reference's `Lines` differ — v9's hoisted dict-valued
`PE_Spc_Number` (containing `UsedLines` "4") is translated and then wins
the no-break `Lines` scan. -/
theorem c8_counterexample :
    firstLayerFirstRefLines (parse_xadf_v9 c8tree) = some (.strList ["K_alpha2"]) ∧
    firstLayerFirstRefLines (parse_xadf_v3 c8tree) = some (.strList ["K_alpha1"]) ∧
    Value.strList ["K_alpha2"] ≠ Value.strList ["K_alpha1"] := by
  refine ⟨rfl, rfl, ?_⟩
  intro h
  simp at h

/-- Claim C8 (witness): a well-behaved document (scalar `PE_Spc_Number`)
on which both variants complete and agree modulo `PE_Spc_Number`. -/
theorem c8_witness :
    (parse_xadf_v9 c8wtree).map scrubModel = (parse_xadf_v3 c8wtree).map scrubModel :=
  c8_variants_agree c8wtree rfl rfl rfl rfl

end XADF
